import Mathlib

/-!
Shallow embedding of the adversarial-debiasing training scripts
(`run_debiasing.py` and `get_gender.py`) and proofs about them.

Python lists are modelled as Lean `List`s, CSV rows as `List String`,
float tensors as lists of exact numbers (`ℚ` where only order matters,
`ℝ` where `softmax`/`exp` appears), fallible code as `Except`/`Option`.
-/

namespace Debias

/-- Sequencing of a fallible map over a list, modelling a Python list
comprehension that may raise: the first failure aborts the whole run. -/
def optMap (f : α → Option β) : List α → Option (List β)
  | [] => some []
  | a :: l =>
    match f a, optMap f l with
    | some b, some l' => some (b :: l')
    | _, _ => none

/-- Sequencing of a fallible map over a list carrying an error value,
modelling a Python list comprehension that may raise an exception. -/
def exceptMap (f : α → Except ε β) : List α → Except ε (List β)
  | [] => .ok []
  | a :: l =>
    match f a with
    | .error e => .error e
    | .ok b =>
      match exceptMap f l with
      | .error e => .error e
      | .ok l' => .ok (b :: l')

/-- A single training/test example for the SWAG dataset (class `SwagExample`).
The constructor takes the four endings separately, exactly as in the source. -/
structure SwagExample where
  swag_id : String
  context_sentence : String
  start_ending : String
  ending_0 : String
  ending_1 : String
  ending_2 : String
  ending_3 : String
  label : Option Int
  protected_attr : Option Int
deriving DecidableEq, Repr

/-- The `self.endings` list built by `SwagExample.__init__`. -/
def SwagExample.endings (e : SwagExample) : List String :=
  [e.ending_0, e.ending_1, e.ending_2, e.ending_3]

/-- The exceptions `read_swag_examples` can raise: the explicit missing-label
`ValueError`, the `ValueError` raised by `int(...)` on a non-integer field,
and the `IndexError` raised by indexing a too-short row. -/
inductive ReadError
  | valueErrorMissingLabel
  | valueErrorBadInt
  | indexError
deriving DecidableEq, Repr

/-- Digits-to-number part of Python's `int(str)`: all characters must be
decimal digits and at least one must be present. -/
def parseDigits (cs : List Char) : Option ℕ :=
  if cs = [] then none
  else
    cs.foldl
      (fun acc c =>
        acc.bind fun n =>
          if c.isDigit then some (n * 10 + (c.toNat - '0'.toNat)) else none)
      (some 0)

/-- Python's `int(str)` conversion (an optional sign followed by decimal
digits; anything else raises `ValueError`, modelled as `none`). -/
def parseInt (s : String) : Option Int :=
  match s.data with
  | '-' :: cs => (parseDigits cs).map fun n => -(n : Int)
  | '+' :: cs => (parseDigits cs).map fun n => (n : Int)
  | cs => (parseDigits cs).map fun n => (n : Int)

/-- Construction of one `SwagExample` from a data row, following the
keyword arguments of the constructor call in `read_swag_examples`
(fields are read, and `int(...)` conversions performed, in Python's
left-to-right evaluation order). -/
def mkSwagExample (row : List String) (is_training : Bool) :
    Except ReadError SwagExample :=
  match row[2]?, row[4]?, row[5]?, row[7]?, row[8]?, row[9]?, row[10]? with
  | some sid, some ctx, some se, some e0, some e1, some e2, some e3 =>
    if is_training then
      match row[11]? with
      | none => .error .indexError
      | some s11 =>
        match parseInt s11 with
        | none => .error .valueErrorBadInt
        | some lb =>
          match row[12]? with
          | none => .error .indexError
          | some s12 =>
            match parseInt s12 with
            | none => .error .valueErrorBadInt
            | some pa => .ok ⟨sid, ctx, se, e0, e1, e2, e3, some lb, some pa⟩
    else .ok ⟨sid, ctx, se, e0, e1, e2, e3, none, none⟩
  | _, _, _, _, _, _, _ => .error .indexError

/-- The function `read_swag_examples`, with the file already parsed into CSV
rows.  In training mode Python evaluates `lines[0]` (an `IndexError` on an
empty file), then checks for the `label` column and raises the configuration
`ValueError` before the example-building list comprehension runs; the
comprehension maps `lines[1:]` in order. -/
def read_swag_examples (lines : List (List String)) (is_training : Bool) :
    Except ReadError (List SwagExample) :=
  match is_training, lines with
  | true, [] => .error .indexError
  | true, hd :: tl =>
    if "label" ∉ hd then .error .valueErrorMissingLabel
    else exceptMap (mkSwagExample · true) tl
  | false, lines => exceptMap (mkSwagExample · false) lines.tail

/-- Loop body of `_truncate_seq_pair`, made structurally recursive on a fuel
argument.  Each loop iteration removes exactly one token, so a fuel equal to
the initial combined length always suffices; `list.pop()` is `List.dropLast`. -/
def truncGo : ℕ → List α → List α → ℕ → List α × List α
  | 0, a, b, _ => (a, b)
  | fuel + 1, a, b, max_length =>
    if a.length + b.length ≤ max_length then (a, b)
    else if b.length < a.length then truncGo fuel a.dropLast b max_length
    else truncGo fuel a b.dropLast max_length

/-- The function `_truncate_seq_pair(tokens_a, tokens_b, max_length)`:
repeatedly pop one token from the currently longer sequence (from `tokens_b`
when the lengths are equal, since the source tests `len(tokens_a) >
len(tokens_b)`) until the combined length is at most `max_length`. -/
def truncateSeqPair (tokens_a tokens_b : List α) (max_length : ℕ) :
    List α × List α :=
  truncGo (tokens_a.length + tokens_b.length) tokens_a tokens_b max_length

/-- Instrumented run of the `_truncate_seq_pair` loop: one entry per removed
token, recording the two lengths at the moment of removal and the side the
token was removed from (`true` = from `tokens_a`). -/
def truncLogGo : ℕ → List α → List α → ℕ → List (ℕ × ℕ × Bool)
  | 0, _, _, _ => []
  | fuel + 1, a, b, max_length =>
    if a.length + b.length ≤ max_length then []
    else if b.length < a.length then
      (a.length, b.length, true) :: truncLogGo fuel a.dropLast b max_length
    else
      (a.length, b.length, false) :: truncLogGo fuel a b.dropLast max_length

/-- The removal log of a `truncateSeqPair` run. -/
def truncateLog (tokens_a tokens_b : List α) (max_length : ℕ) :
    List (ℕ × ℕ × Bool) :=
  truncLogGo (tokens_a.length + tokens_b.length) tokens_a tokens_b max_length

/-- One entry of `choices_features` as stored by `InputFeatures.__init__`
(the raw `tokens`/`vp_tokens` lists are dropped there). -/
structure EncodedChoice where
  input_ids : List ℕ
  input_mask : List ℕ
  segment_ids : List ℕ
  vp_input_ids : List ℕ
  vp_input_mask : List ℕ
deriving DecidableEq, Repr

/-- The class `InputFeatures`. -/
structure InputFeatures where
  example_id : String
  choices_features : List EncodedChoice
  label : Option Int
  protected_attr : Option Int
  endings : List String
deriving DecidableEq, Repr

/-- Body of the per-ending loop of `convert_examples_to_features`.  The
tokenizer is a parameter `tok` and `convert_tokens_to_ids` maps each token to
its id through `tokToId`.  A failed `assert` aborts the process: `none`.
`int(max_seq_length / 2)` is floor division for the nonnegative
`max_seq_length`, i.e. `max_seq_length / 2` on `ℕ`. -/
def convertChoice (tok : String → List String) (tokToId : String → ℕ)
    (max_seq_length : ℕ) (context_tokens start_ending_tokens : List String)
    (ending : String) : Option EncodedChoice :=
  let vp_token_ := tok ending
  let ending_tokens := start_ending_tokens ++ vp_token_
  let p := truncateSeqPair context_tokens ending_tokens (max_seq_length - 3)
  let context_tokens_choice := p.1
  let ending_tokens := p.2
  let vp_tokens := "[CLS]" :: vp_token_ ++ ["[SEP]"]
  let tokens := "[CLS]" :: context_tokens_choice ++ ["[SEP]"] ++ ending_tokens ++ ["[SEP]"]
  let segment_ids := List.replicate (context_tokens_choice.length + 2) 0 ++
    List.replicate (ending_tokens.length + 1) 1
  let input_ids := tokens.map tokToId
  let input_mask := List.replicate input_ids.length 1
  let vp_input_ids := vp_tokens.map tokToId
  let vp_input_mask := List.replicate vp_input_ids.length 1
  let padding := List.replicate (max_seq_length - input_ids.length) 0
  let input_ids := input_ids ++ padding
  let input_mask := input_mask ++ padding
  let segment_ids := segment_ids ++ padding
  let vp_padding := List.replicate (max_seq_length / 2 - vp_input_ids.length) 0
  let vp_input_ids := vp_input_ids ++ vp_padding
  let vp_input_mask := vp_input_mask ++ vp_padding
  if input_ids.length = max_seq_length ∧ input_mask.length = max_seq_length ∧
      segment_ids.length = max_seq_length ∧
      vp_input_ids.length = max_seq_length / 2 ∧
      vp_input_mask.length = max_seq_length / 2 then
    some ⟨input_ids, input_mask, segment_ids, vp_input_ids, vp_input_mask⟩
  else none

/-- Body of the per-example loop of `convert_examples_to_features`: tokenize
the context and the shared start of the endings once, then encode the four
endings in order. -/
def convertExample (tok : String → List String) (tokToId : String → ℕ)
    (max_seq_length : ℕ) (ex : SwagExample) : Option InputFeatures :=
  let context_tokens := tok ex.context_sentence
  let start_ending_tokens := tok ex.start_ending
  match optMap (convertChoice tok tokToId max_seq_length context_tokens
      start_ending_tokens) ex.endings with
  | none => none
  | some choices_features =>
    some ⟨ex.swag_id, choices_features, ex.label,
      ex.protected_attr, ex.endings⟩

/-- The function `convert_examples_to_features`: encode the examples in
order; a failed length assertion aborts the whole run. -/
def convert_examples_to_features (tok : String → List String)
    (tokToId : String → ℕ) (max_seq_length : ℕ) (examples : List SwagExample) :
    Option (List InputFeatures) :=
  optMap (convertExample tok tokToId max_seq_length) examples

/-- Index of the first maximum of a list, tracking the running best value,
its index, and the index of the next element. -/
def argmaxGo : List ℚ → ℚ → ℕ → ℕ → ℕ
  | [], _, besti, _ => besti
  | y :: ys, best, besti, i =>
    if best < y then argmaxGo ys y i (i + 1) else argmaxGo ys best besti (i + 1)

/-- The index returned by `torch.argmax(·, dim=1)` (equally, the index part of
`torch.max(·, dim=1)`) on one row: the index of the row's first maximum. -/
def argmax (row : List ℚ) : ℕ :=
  match row with
  | [] => 0
  | x :: xs => argmaxGo xs x 0 1

/-- The function `accuracy(out, labels)`:
`torch.sum(torch.argmax(out, dim=1) == labels)`, the sum of the elementwise
equality indicators. -/
def accuracy (out : List (List ℚ)) (labels : List ℕ) : ℕ :=
  let outputs := out.map argmax
  ((outputs.zip labels).map (fun p => if p.1 = p.2 then 1 else 0)).sum

/-- One output row of `torch.gather(vp, dim=1, index)` followed by the
flattening `view`, where `index[i][0][k] = idx` for every `k < width`:
`out[i][k] = vp[i][idx][k]`.  `width` is `vp_input_ids.size(2)`. -/
def gatherRow (choices : List (List ℕ)) (idx width : ℕ) : List ℕ :=
  (List.range width).map fun k => ((choices.getD idx []).getD k 0)

/-- Evaluation-mode selection of the adversary's input (lines 647-652):
for each example, gather the VP slice at `argmax(logits_pred, dim=1)`;
nothing is prepended. -/
def evalGatherVp (logits : List (List ℚ)) (vp : List (List (List ℕ)))
    (width : ℕ) : List (List ℕ) :=
  (logits.zip vp).map fun p => gatherRow p.2 (argmax p.1) width

/-- The fixed adversarial trade-off weight `alpha = 1` (line 469). -/
def alpha : ℚ := 1

/-- Loss rescaling applied before the combined objective (lines 518-525):
multiply both losses by `loss_scale` in fp16 mode when the scale is not 1,
then divide both by `gradient_accumulation_steps` when it exceeds 1. -/
def scaleLosses (fp16 : Bool) (loss_scale : ℚ) (gradient_accumulation_steps : ℕ)
    (loss_pred loss_adv : ℚ) : ℚ × ℚ :=
  let q := if fp16 ∧ loss_scale ≠ 1 then (loss_pred * loss_scale, loss_adv * loss_scale)
    else (loss_pred, loss_adv)
  if 1 < gradient_accumulation_steps then
    (q.1 / gradient_accumulation_steps, q.2 / gradient_accumulation_steps)
  else q

/-- The combined objective of line 532: `loss = loss_pred - alpha * loss_adv`. -/
def combinedLoss (loss_pred loss_adv : ℚ) : ℚ :=
  loss_pred - alpha * loss_adv

/-- The loss the training step backpropagates for the predictor update:
the combined objective of the (possibly rescaled) losses. -/
def trainStepLoss (fp16 : Bool) (loss_scale : ℚ)
    (gradient_accumulation_steps : ℕ) (loss_pred loss_adv : ℚ) : ℚ :=
  let q := scaleLosses fp16 loss_scale gradient_accumulation_steps loss_pred loss_adv
  combinedLoss q.1 q.2

/-- Maximum of a list of reals, as `torch.max(·, dim=1)` computes it on one
(nonempty) row. -/
def listMax : List ℝ → ℝ
  | [] => 0
  | x :: xs => xs.foldl max x

/-- Softmax of a 1-D tensor of reals. -/
noncomputable def softmax (xs : List ℝ) : List ℝ :=
  xs.map fun x => Real.exp x / (xs.map Real.exp).sum

/-- The confidence values the training loop prepends (lines 502-503):
`max_prob, _ = torch.max(logits, dim=1)` takes the per-example maximum
logit, and `(100 * softmax(max_prob)).long()` applies softmax to that 1-D
tensor — i.e. ACROSS THE BATCH of per-example maxima — scales by 100 and
truncates (softmax outputs are positive, so `.long()` is the floor). -/
noncomputable def trainConfScores (logits : List (List ℝ)) : List ℤ :=
  (softmax (logits.map listMax)).map fun p => ⌊100 * p⌋

/-- Modelled from the spec and claim wording, for comparison: "the maximum
softmax probability of that example's per-choice predictor logits, scaled to
an integer in 0..100" — per example, softmax over that example's own four
logits, then the maximum, scaled and floored. -/
noncomputable def specConfScores (logits : List (List ℝ)) : List ℤ :=
  logits.map fun row => ⌊100 * listMax (softmax row)⌋

/-- The mask entries prepended by the training loop (line 511):
`0 * max_prob + 1` elementwise on the confidence column. -/
noncomputable def trainConfMask (logits : List (List ℝ)) : List ℤ :=
  (trainConfScores logits).map fun v => 0 * v + 1

/-- The female word set of `get_gender.py` (line 3). -/
def girls : List String :=
  ["she", "She", "SHE", "her", "Her", "HER", "woman", "Woman", "women",
   "Women", "WOMAN", "girl", "girls", "lady", "ladys"]

/-- The male word set of `get_gender.py` (line 4). -/
def boys : List String :=
  ["he", "He", "HE", "his", "His", "HIS", "man", "Man", "men", "Men",
   "MAN", "boy", "boys"]

/-- The per-row labelling loop of `get_gender.py` (lines 14-21): start from
the empty label, scan the whitespace-split words of column 5 in order, and
overwrite the label with 1 on a female-set word and 0 on a male-set word.
`none` models the loop ending with `label == ""`. -/
def genderLabel (np : String) : Option ℕ :=
  (np.splitOn " ").foldl
    (fun label n =>
      if girls.contains n then some 1
      else if boys.contains n then some 0
      else label)
    none

/-- The whole labelling script on a parsed CSV (lines 10-24): write the
header with `"gender"` appended, then for each data row compute the label
from column 5 and write `row + [label]` only when a label was assigned
(the csv writer renders the integer label as a decimal string). -/
def labelScript (header : List String) (rows : List (List String)) :
    List (List String) :=
  (header ++ ["gender"]) ::
    rows.filterMap fun row =>
      (genderLabel (row.getD 5 "")).map fun l => row ++ [toString l]

/-- Modelled from the claim wording, for comparison: the last
whitespace-separated word of column 5 that is in either gender word set,
i.e. the first matching word of the reversed word list. -/
def lastGenderWord (np : String) : Option String :=
  (np.splitOn " ").reverse.find? fun w => girls.contains w || boys.contains w

theorem optMap_length {f : α → Option β} :
    ∀ {l : List α} {l' : List β}, optMap f l = some l' → l'.length = l.length := by
  intro l
  induction l with
  | nil => intro l' h; simp [optMap] at h; simp [← h]
  | cons a l ih =>
    intro l' h
    simp only [optMap] at h
    cases hfa : f a with
    | none => rw [hfa] at h; simp at h
    | some b =>
      rw [hfa] at h
      cases hrest : optMap f l with
      | none => rw [hrest] at h; simp at h
      | some l'' =>
        rw [hrest] at h
        simp only [Option.some.injEq] at h
        subst h
        simp [ih hrest]

theorem optMap_mem {f : α → Option β} :
    ∀ {l : List α} {l' : List β}, optMap f l = some l' →
      ∀ b ∈ l', ∃ a ∈ l, f a = some b := by
  intro l
  induction l with
  | nil => intro l' h; simp [optMap] at h; subst h; simp
  | cons a l ih =>
    intro l' h b hb
    simp only [optMap] at h
    cases hfa : f a with
    | none => rw [hfa] at h; simp at h
    | some b0 =>
      rw [hfa] at h
      cases hrest : optMap f l with
      | none => rw [hrest] at h; simp at h
      | some l'' =>
        rw [hrest] at h
        simp only [Option.some.injEq] at h
        subst h
        rcases List.mem_cons.mp hb with hb | hb
        · exact ⟨a, List.mem_cons_self a l, hb ▸ hfa⟩
        · obtain ⟨a', ha', hfa'⟩ := ih hrest b hb
          exact ⟨a', List.mem_cons_of_mem a ha', hfa'⟩

theorem optMap_isSome_iff {f : α → Option β} :
    ∀ {l : List α}, (optMap f l).isSome ↔ ∀ a ∈ l, (f a).isSome := by
  intro l
  induction l with
  | nil => simp [optMap]
  | cons a l ih =>
    simp only [optMap]
    cases hfa : f a with
    | none => simp [hfa]
    | some b =>
      cases hrest : optMap f l with
      | none => simp [hfa, ← ih, hrest]
      | some l'' => simp [hfa, ← ih, hrest]

theorem exceptMap_ne_error {ε : Type _} {f : α → Except ε β} (bad : ε)
    (hne : ∀ a, f a ≠ .error bad) :
    ∀ l : List α, exceptMap f l ≠ .error bad := by
  intro l
  induction l with
  | nil => simp [exceptMap]
  | cons a l ih =>
    simp only [exceptMap]
    cases hfa : f a with
    | error e =>
      intro h
      simp only [Except.error.injEq] at h
      exact hne a (h ▸ hfa)
    | ok b =>
      cases hrest : exceptMap f l with
      | error e =>
        intro h
        simp only [Except.error.injEq] at h
        exact ih (h ▸ hrest)
      | ok l' => simp

theorem truncGo_of_le (fuel : ℕ) (a b : List α) (m : ℕ)
    (h : a.length + b.length ≤ m) : truncGo fuel a b m = (a, b) := by
  cases fuel with
  | zero => rfl
  | succ fuel => simp [truncGo, h]

theorem truncGo_sum (fuel : ℕ) :
    ∀ (a b : List α) (m : ℕ), a.length + b.length ≤ fuel →
      m < a.length + b.length →
      (truncGo fuel a b m).1.length + (truncGo fuel a b m).2.length = m := by
  induction fuel with
  | zero => intro a b m hf hm; omega
  | succ fuel ih =>
    intro a b m hf hm
    simp only [truncGo]
    rw [if_neg (by omega)]
    by_cases hba : b.length < a.length
    · rw [if_pos hba]
      rcases Nat.lt_or_ge m (a.dropLast.length + b.length) with h2 | h2
      · exact ih _ _ _ (by simp only [List.length_dropLast]; omega) h2
      · rw [truncGo_of_le _ _ _ _ h2]
        simp only [List.length_dropLast] at h2 ⊢
        omega
    · rw [if_neg hba]
      rcases Nat.lt_or_ge m (a.length + b.dropLast.length) with h2 | h2
      · exact ih _ _ _ (by simp only [List.length_dropLast]; omega) h2
      · rw [truncGo_of_le _ _ _ _ h2]
        simp only [List.length_dropLast] at h2 ⊢
        omega

theorem truncateSeqPair_sum_le (a b : List α) (m : ℕ) :
    (truncateSeqPair a b m).1.length + (truncateSeqPair a b m).2.length ≤ m ∨
      truncateSeqPair a b m = (a, b) := by
  rcases Nat.lt_or_ge m (a.length + b.length) with h | h
  · exact .inl (le_of_eq (truncGo_sum _ _ _ _ le_rfl h))
  · exact .inr (truncGo_of_le _ _ _ _ h)

/-- C3: after `_truncate_seq_pair` on budget `max_seq_length - 3`, if the
original combined length exceeded the budget the combined length is exactly
`max_seq_length - 3`; otherwise both sequences are unchanged. -/
theorem truncation_budget (a b : List String) (max_seq_length : ℕ) :
    (max_seq_length - 3 < a.length + b.length →
      (truncateSeqPair a b (max_seq_length - 3)).1.length +
        (truncateSeqPair a b (max_seq_length - 3)).2.length =
          max_seq_length - 3) ∧
    (a.length + b.length ≤ max_seq_length - 3 →
      truncateSeqPair a b (max_seq_length - 3) = (a, b)) :=
  ⟨fun h => truncGo_sum _ _ _ _ le_rfl h, fun h => truncGo_of_le _ _ _ _ h⟩

theorem truncation_budget_witness :
    ((truncateSeqPair ["a", "b", "c"] ["d"] (5 - 3)).1.length +
      (truncateSeqPair ["a", "b", "c"] ["d"] (5 - 3)).2.length = 5 - 3) ∧
    truncateSeqPair ["a"] ["d"] (5 - 3) = (["a"], ["d"]) :=
  ⟨(truncation_budget ["a", "b", "c"] ["d"] 5).1 (by decide),
   (truncation_budget ["a"] ["d"] 5).2 (by decide)⟩

theorem truncLogGo_mem (fuel : ℕ) :
    ∀ (a b : List α) (m : ℕ), ∀ e ∈ truncLogGo fuel a b m,
      m < e.1 + e.2.1 ∧ (e.2.2 = true ↔ e.2.1 < e.1) := by
  induction fuel with
  | zero => intro a b m e he; simp [truncLogGo] at he
  | succ fuel ih =>
    intro a b m e he
    simp only [truncLogGo] at he
    split at he
    · simp at he
    · rename_i hle
      split at he
      · rename_i hba
        rcases List.mem_cons.mp he with he | he
        · subst he
          refine ⟨?_, ?_⟩
          · show m < a.length + b.length
            omega
          · show (true = true) ↔ b.length < a.length
            simp [hba]
        · exact ih _ _ _ e he
      · rename_i hba
        rcases List.mem_cons.mp he with he | he
        · subst he
          refine ⟨?_, ?_⟩
          · show m < a.length + b.length
            omega
          · show (false = true) ↔ b.length < a.length
            simp only [Bool.false_eq_true, false_iff]
            omega
        · exact ih _ _ _ e he

theorem truncLogGo_count (fuel : ℕ) :
    ∀ (a b : List α) (m : ℕ), a.length + b.length ≤ fuel →
      (truncLogGo fuel a b m).length + (truncGo fuel a b m).1.length +
        (truncGo fuel a b m).2.length = a.length + b.length := by
  induction fuel with
  | zero =>
    intro a b m hf
    simp only [truncLogGo, truncGo, List.length_nil]
    omega
  | succ fuel ih =>
    intro a b m hf
    simp only [truncLogGo, truncGo]
    by_cases hle : a.length + b.length ≤ m
    · rw [if_pos hle, if_pos hle]
      simp
    · rw [if_neg hle, if_neg hle]
      by_cases hba : b.length < a.length
      · rw [if_pos hba, if_pos hba]
        have := ih a.dropLast b m (by simp only [List.length_dropLast]; omega)
        simp only [List.length_dropLast] at this
        simp only [List.length_cons]
        omega
      · rw [if_neg hba, if_neg hba]
        have := ih a b.dropLast m (by simp only [List.length_dropLast]; omega)
        simp only [List.length_dropLast] at this
        simp only [List.length_cons]
        omega

/-- C4: every removal performed by `_truncate_seq_pair` happens only while
the pair is over budget and comes from `tokens_a` exactly when `tokens_a` is
strictly longer — so on equal lengths the token is removed from `tokens_b`,
the ending-span side.  The removal log accounts exactly for the length lost
by `truncateSeqPair`, and the procedure is a pure function, hence
deterministic. -/
theorem truncation_removal_sides (a b : List α) (m : ℕ) :
    (∀ e ∈ truncateLog a b m,
      m < e.1 + e.2.1 ∧ (e.2.2 = true ↔ e.2.1 < e.1)) ∧
    (truncateLog a b m).length + (truncateSeqPair a b m).1.length +
      (truncateSeqPair a b m).2.length = a.length + b.length :=
  ⟨truncLogGo_mem _ a b m, truncLogGo_count _ a b m le_rfl⟩

theorem truncation_removal_sides_witness :
    1 < (1 : ℕ) + 1 ∧ ((false = true) ↔ (1 : ℕ) < 1) :=
  (truncation_removal_sides ["x"] ["y", "z"] 1).1 (1, 1, false) (by decide)

theorem convertChoice_lengths {tok : String → List String}
    {tokToId : String → ℕ} {msl : ℕ} {ct st : List String} {e : String}
    {c : EncodedChoice} (h : convertChoice tok tokToId msl ct st e = some c) :
    c.input_ids.length = msl ∧ c.input_mask.length = msl ∧
    c.segment_ids.length = msl ∧ c.vp_input_ids.length = msl / 2 ∧
    c.vp_input_mask.length = msl / 2 := by
  simp only [convertChoice] at h
  split at h
  · rename_i hg
    injection h with h
    subst h
    exact hg
  · exact absurd h (by simp)

theorem convertExample_choices {tok : String → List String}
    {tokToId : String → ℕ} {msl : ℕ} {ex : SwagExample} {f : InputFeatures}
    (h : convertExample tok tokToId msl ex = some f) :
    f.choices_features.length = 4 ∧
    ∀ c ∈ f.choices_features, ∃ e ∈ ex.endings,
      convertChoice tok tokToId msl (tok ex.context_sentence)
        (tok ex.start_ending) e = some c := by
  simp only [convertExample] at h
  split at h
  · exact absurd h (by simp)
  · rename_i cf hcf
    injection h with h
    subst h
    refine ⟨?_, fun c hc => optMap_mem hcf c hc⟩
    have := optMap_length hcf
    simp only [SwagExample.endings, List.length_cons, List.length_nil] at this
    simpa using this

/-- C2: whenever the Feature Encoder completes (no assertion fires), every
produced feature has exactly 4 encoded choices, and every choice has
`input_ids`, `input_mask` and `segment_ids` of length `max_seq_length` and
`vp_input_ids`, `vp_input_mask` of length `max_seq_length / 2`. -/
theorem encoder_output_shapes (tok : String → List String)
    (tokToId : String → ℕ) (max_seq_length : ℕ) (examples : List SwagExample)
    (features : List InputFeatures)
    (h : convert_examples_to_features tok tokToId max_seq_length examples =
      some features) :
    ∀ f ∈ features, f.choices_features.length = 4 ∧
      ∀ c ∈ f.choices_features,
        c.input_ids.length = max_seq_length ∧
        c.input_mask.length = max_seq_length ∧
        c.segment_ids.length = max_seq_length ∧
        c.vp_input_ids.length = max_seq_length / 2 ∧
        c.vp_input_mask.length = max_seq_length / 2 := by
  intro f hf
  obtain ⟨ex, _, hfe⟩ := optMap_mem h f hf
  obtain ⟨hlen, hmem⟩ := convertExample_choices hfe
  refine ⟨hlen, fun c hc => ?_⟩
  obtain ⟨e, _, hce⟩ := hmem c hc
  exact convertChoice_lengths hce

theorem encoder_output_shapes_witness :
    (((convert_examples_to_features (fun s => [s]) (fun _ => 7) 8
        [⟨"id0", "ctx", "se", "e0", "e1", "e2", "e3", some 0, some 1⟩]).getD
        []).getD 0 ⟨"", [], none, none, []⟩).choices_features.length = 4 ∧
    ((((convert_examples_to_features (fun s => [s]) (fun _ => 7) 8
        [⟨"id0", "ctx", "se", "e0", "e1", "e2", "e3", some 0, some 1⟩]).getD
        []).getD 0 ⟨"", [], none, none, []⟩).choices_features.getD 0
        ⟨[], [], [], [], []⟩).input_ids.length = 8 ∧
    ((((convert_examples_to_features (fun s => [s]) (fun _ => 7) 8
        [⟨"id0", "ctx", "se", "e0", "e1", "e2", "e3", some 0, some 1⟩]).getD
        []).getD 0 ⟨"", [], none, none, []⟩).choices_features.getD 0
        ⟨[], [], [], [], []⟩).vp_input_ids.length = 8 / 2 := by
  have h := encoder_output_shapes (fun s => [s]) (fun _ => 7) 8
    [⟨"id0", "ctx", "se", "e0", "e1", "e2", "e3", some 0, some 1⟩] _ rfl
    (((convert_examples_to_features (fun s => [s]) (fun _ => 7) 8
      [⟨"id0", "ctx", "se", "e0", "e1", "e2", "e3", some 0, some 1⟩]).getD
      []).getD 0 ⟨"", [], none, none, []⟩) (by decide)
  have h2 := h.2
    ((((convert_examples_to_features (fun s => [s]) (fun _ => 7) 8
      [⟨"id0", "ctx", "se", "e0", "e1", "e2", "e3", some 0, some 1⟩]).getD
      []).getD 0 ⟨"", [], none, none, []⟩).choices_features.getD 0
      ⟨[], [], [], [], []⟩) (by decide)
  exact ⟨h.1, h2.1, h2.2.2.2.1⟩

theorem convertChoice_isSome_iff (tok : String → List String)
    (tokToId : String → ℕ) (msl : ℕ) (ct st : List String) (e : String)
    (h3 : 3 ≤ msl) :
    (convertChoice tok tokToId msl ct st e).isSome ↔
      (tok e).length + 2 ≤ msl / 2 := by
  have hp := truncateSeqPair_sum_le ct (st ++ tok e) (msl - 3)
  have hp2 : (truncateSeqPair ct (st ++ tok e) (msl - 3)).1.length +
      (truncateSeqPair ct (st ++ tok e) (msl - 3)).2.length ≤ msl - 3 := by
    rcases hp with hp | hp
    · exact hp
    · rw [hp]
      rcases Nat.lt_or_ge (msl - 3) (ct.length + (st ++ tok e).length) with h | h
      · have := truncGo_sum (ct.length + (st ++ tok e).length) ct (st ++ tok e)
          (msl - 3) le_rfl h
        rw [show truncGo (ct.length + (st ++ tok e).length) ct (st ++ tok e)
          (msl - 3) = truncateSeqPair ct (st ++ tok e) (msl - 3) from rfl,
          hp] at this
        omega
      · exact h
  simp only [convertChoice]
  split
  · rename_i hg
    simp only [Option.isSome_some, true_iff]
    simp only [List.length_append, List.length_map, List.length_cons,
      List.length_replicate, List.length_nil] at hg
    omega
  · rename_i hg
    simp only [Option.isSome_none, Bool.false_eq_true, false_iff]
    intro hvp
    apply hg
    simp only [List.length_append, List.length_map, List.length_cons,
      List.length_replicate, List.length_nil]
    refine ⟨?_, ?_, ?_, ?_, ?_⟩ <;> omega

theorem convertExample_isSome_iff (tok : String → List String)
    (tokToId : String → ℕ) (msl : ℕ) (ex : SwagExample) (h3 : 3 ≤ msl) :
    (convertExample tok tokToId msl ex).isSome ↔
      ∀ e ∈ ex.endings, (tok e).length + 2 ≤ msl / 2 := by
  have h1 : (convertExample tok tokToId msl ex).isSome =
      (optMap (convertChoice tok tokToId msl (tok ex.context_sentence)
        (tok ex.start_ending)) ex.endings).isSome := by
    simp only [convertExample]
    split <;> simp_all
  rw [h1, optMap_isSome_iff]
  constructor
  · intro h e he
    exact (convertChoice_isSome_iff tok tokToId msl _ _ e h3).mp (h e he)
  · intro h e he
    exact (convertChoice_isSome_iff tok tokToId msl _ _ e h3).mpr (h e he)

/-- C9: for `max_seq_length ≥ 3`, the Feature Encoder's length assertions
pass (the encoder completes) exactly when every ending of every example
tokenizes to at most `max_seq_length / 2 - 2` tokens, i.e. when the
VP-only sequence `[CLS] + ending tokens + [SEP]` fits in `max_seq_length / 2`
without truncation; a longer ending makes the VP length assertion fail. -/
theorem vp_assertion_characterization (tok : String → List String)
    (tokToId : String → ℕ) (max_seq_length : ℕ) (examples : List SwagExample)
    (h3 : 3 ≤ max_seq_length) :
    (convert_examples_to_features tok tokToId max_seq_length examples).isSome ↔
      ∀ ex ∈ examples, ∀ e ∈ ex.endings,
        (tok e).length + 2 ≤ max_seq_length / 2 := by
  rw [convert_examples_to_features, optMap_isSome_iff]
  constructor
  · intro h ex hex
    exact (convertExample_isSome_iff tok tokToId _ ex h3).mp (h ex hex)
  · intro h ex hex
    exact (convertExample_isSome_iff tok tokToId _ ex h3).mpr (h ex hex)

theorem argmaxGo_lt (ys : List ℚ) :
    ∀ (best : ℚ) (besti i : ℕ), besti < i →
      argmaxGo ys best besti i < i + ys.length := by
  induction ys with
  | nil =>
    intro best besti i h
    simpa [argmaxGo] using h
  | cons y ys ih =>
    intro best besti i h
    simp only [argmaxGo, List.length_cons]
    split
    · have := ih y i (i + 1) (by omega)
      omega
    · have := ih best besti (i + 1) (by omega)
      omega

theorem argmax_lt_length (row : List ℚ) (h : row ≠ []) :
    argmax row < row.length := by
  match row with
  | x :: xs =>
    have := argmaxGo_lt xs x 0 1 (by omega)
    simp only [argmax, List.length_cons]
    omega

theorem range_map_getD (l : List ℕ) :
    (List.range l.length).map (fun k => l.getD k 0) = l := by
  apply List.ext_getElem
  · simp
  · intro i h1 h2
    simp only [List.getElem_map, List.getElem_range]
    exact List.getD_eq_getElem l 0 h2

theorem gatherRow_eq (choices : List (List ℕ)) (idx width : ℕ)
    (hw : (choices.getD idx []).length = width) :
    gatherRow choices idx width = choices.getD idx [] := by
  rw [gatherRow, ← hw, range_map_getD]

theorem getD_zip_map {α β γ : Type _} (f : α × β → γ) (dc : γ) (da : α)
    (db : β) : ∀ (l₁ : List α) (l₂ : List β) (i : ℕ),
    i < l₁.length → i < l₂.length →
    ((l₁.zip l₂).map f).getD i dc = f (l₁.getD i da, l₂.getD i db) := by
  intro l₁
  induction l₁ with
  | nil => intro l₂ i h1 _; simp at h1
  | cons a l₁ ih =>
    intro l₂ i h1 h2
    cases l₂ with
    | nil => simp at h2
    | cons b l₂ =>
      cases i with
      | zero => simp [List.zip_cons_cons]
      | succ i =>
        simp only [List.zip_cons_cons, List.map_cons, List.getD_cons_succ]
        exact ih l₂ i (by simpa using h1) (by simpa using h2)

/-- C5: in evaluation mode the VP slice handed to the adversary for example
`i` is exactly the stored VP row of the choice at `argmax` of that example's
predictor logits — the whole row, with no confidence entry prepended. -/
theorem eval_selection (logits : List (List ℚ)) (vp : List (List (List ℕ)))
    (width i : ℕ) (hi : i < logits.length) (hlen : logits.length = vp.length)
    (hrow : logits.getD i [] ≠ [])
    (hchoices : (logits.getD i []).length = (vp.getD i []).length)
    (hw : ∀ c ∈ vp.getD i [], c.length = width) :
    (evalGatherVp logits vp width).getD i [] =
      (vp.getD i []).getD (argmax (logits.getD i [])) [] := by
  rw [evalGatherVp, getD_zip_map _ _ [] [] _ _ _ hi (hlen ▸ hi)]
  apply gatherRow_eq
  apply hw
  have hidx : argmax (logits.getD i []) < (vp.getD i []).length :=
    hchoices ▸ argmax_lt_length _ hrow
  rw [List.getD_eq_getElem _ _ hidx]
  exact List.getElem_mem hidx

theorem eval_selection_witness :
    (evalGatherVp [[(1 : ℚ), 3, 2, 0]] [[[10, 11], [20, 21], [30, 31],
        [40, 41]]] 2).getD 0 [] =
      ([[10, 11], [20, 21], [30, 31], [40, 41]].getD
        (argmax ([[(1 : ℚ), 3, 2, 0]].getD 0 [])) []) :=
  eval_selection [[(1 : ℚ), 3, 2, 0]]
    [[[10, 11], [20, 21], [30, 31], [40, 41]]] 2 0 (by decide) (by decide)
    (by decide) (by decide) (by decide)

theorem sum_if_eq_countP (l : List (ℕ × ℕ)) :
    (l.map fun p => if p.1 = p.2 then 1 else 0).sum =
      l.countP fun p => p.1 == p.2 := by
  induction l with
  | nil => simp
  | cons p l ih =>
    simp only [List.map_cons, List.sum_cons, List.countP_cons, ih]
    by_cases h : p.1 = p.2
    · simp [h]
      omega
    · simp [h]

/-- C8: `accuracy` on logits `[[0.1, 0.9], [0.8, 0.2]]` and labels `[1, 0]`
returns 2, and in general it returns the number of rows whose `argmax`
equals the corresponding label. -/
theorem accuracy_counts :
    accuracy [[(0.1 : ℚ), 0.9], [0.8, 0.2]] [1, 0] = 2 ∧
    ∀ (out : List (List ℚ)) (labels : List ℕ),
      accuracy out labels =
        ((out.map argmax).zip labels).countP fun p => p.1 == p.2 := by
  constructor
  · norm_num [accuracy, argmax, argmaxGo, List.zip_cons_cons]
  · intro out labels
    rw [accuracy, sum_if_eq_countP]

/-- C6: the loss the training step backpropagates for the predictor update
is `loss_pred - alpha * loss_adv` (after the shared fp16 and
gradient-accumulation rescaling of both losses), with the trade-off weight
`alpha` fixed at 1. -/
theorem combined_objective (fp16 : Bool) (loss_scale : ℚ)
    (gradient_accumulation_steps : ℕ) (loss_pred loss_adv : ℚ) :
    alpha = 1 ∧
    trainStepLoss fp16 loss_scale gradient_accumulation_steps
        loss_pred loss_adv =
      (scaleLosses fp16 loss_scale gradient_accumulation_steps
          loss_pred loss_adv).1 -
        1 * (scaleLosses fp16 loss_scale gradient_accumulation_steps
          loss_pred loss_adv).2 :=
  ⟨rfl, rfl⟩

theorem vp_assertion_characterization_witness :
    (convert_examples_to_features (fun s => [s]) (fun _ => 7) 8
      [⟨"id0", "ctx", "se", "e0", "e1", "e2", "e3", some 0, some 1⟩]).isSome ↔
      ∀ ex ∈ [(⟨"id0", "ctx", "se", "e0", "e1", "e2", "e3", some 0,
          some 1⟩ : SwagExample)], ∀ e ∈ ex.endings,
        ((fun s => [s]) e).length + 2 ≤ 8 / 2 :=
  vp_assertion_characterization _ _ _ _ (by omega)

theorem mkSwagExample_ne_missingLabel (row : List String) (t : Bool) :
    mkSwagExample row t ≠ .error .valueErrorMissingLabel := by
  unfold mkSwagExample
  repeat' split
  all_goals simp

/-- C7 amended: in training mode on a file with a header row, the
missing-label configuration `ValueError` is raised if and only if the header
lacks a `label` entry, and the check precedes example construction (the
equivalence holds for arbitrary, even unparsable, data rows `tl`);
non-training mode never raises it.  The original only-if direction fails
because `int(...)` on a non-integer label field also raises a `ValueError`:
see the counterexample theorem. -/
theorem missing_label_error_iff (hd : List String)
    (tl lines : List (List String)) :
    ((read_swag_examples (hd :: tl) true = .error .valueErrorMissingLabel) ↔
      "label" ∉ hd) ∧
    read_swag_examples lines false ≠ .error .valueErrorMissingLabel := by
  constructor
  · constructor
    · intro h
      by_contra hmem
      simp only [read_swag_examples] at h
      rw [if_neg (not_not_intro hmem)] at h
      exact exceptMap_ne_error _
        (fun a => mkSwagExample_ne_missingLabel a true) tl h
    · intro h
      simp only [read_swag_examples]
      rw [if_pos h]
  · simp only [read_swag_examples]
    exact exceptMap_ne_error _
      (fun a => mkSwagExample_ne_missingLabel a false) lines.tail

theorem missing_label_error_iff_witness :
    ((read_swag_examples [["x"]] true = .error .valueErrorMissingLabel) ↔
      "label" ∉ ["x"]) ∧
    read_swag_examples [["x"]] false ≠ .error .valueErrorMissingLabel :=
  missing_label_error_iff ["x"] [] [["x"]]

/-- C7 counterexample: a training-mode file whose header row does contain
`label` but whose data row carries a non-integer label field still raises a
`ValueError` (Python's `int("oops")`), refuting "raises a ValueError only if
the header lacks a label column". -/
theorem missing_label_error_counterexample :
    read_swag_examples
        [["h0", "h1", "h2", "h3", "h4", "h5", "h6", "h7", "h8", "h9", "h10",
          "label", "h12"],
         ["c0", "c1", "id", "c3", "ctx", "se", "c6", "e0", "e1", "e2", "e3",
          "oops", "0"]] true = .error .valueErrorBadInt ∧
    "label" ∈ ["h0", "h1", "h2", "h3", "h4", "h5", "h6", "h7", "h8", "h9",
      "h10", "label", "h12"] ∧
    ReadError.valueErrorBadInt ≠ ReadError.valueErrorMissingLabel := by
  refine ⟨by rfl, by decide, by decide⟩

theorem genderLabel_fold (ws : List String) :
    ∀ acc : Option ℕ,
      ws.foldl (fun label n =>
        if girls.contains n then some 1
        else if boys.contains n then some 0 else label) acc =
      match ws.reverse.find? (fun w => girls.contains w || boys.contains w)
        with
      | some w => some (if girls.contains w then 1 else 0)
      | none => acc := by
  induction ws with
  | nil => intro acc; simp
  | cons w ws ih =>
    intro acc
    rw [List.foldl_cons, ih]
    rw [List.reverse_cons, List.find?_append]
    cases hf : ws.reverse.find?
        (fun w => girls.contains w || boys.contains w) with
    | some x => simp [hf]
    | none =>
      by_cases hg : w ∈ girls
      · simp [hf, hg]
      · by_cases hb : w ∈ boys
        · simp [hf, hg, hb]
        · simp [hf, hg, hb]

/-- C10: the labelling script always writes the header with `gender`
appended, and writes a data row (in order) exactly when some
whitespace-separated word of its column 5 is in the female or male word
set, appending `1` when the last such word is female and `0` when it is
male.  The hypothesis `hcols` restricts the statement to rows on which
Python's `row[5]` is defined; the embedding reads column 5 with a default. -/
theorem gender_labeling (header : List String) (rows : List (List String))
    (_hcols : ∀ row ∈ rows, 5 < row.length) :
    (labelScript header rows).head? = some (header ++ ["gender"]) ∧
    labelScript header rows =
      (header ++ ["gender"]) ::
        rows.filterMap fun row =>
          (lastGenderWord (row.getD 5 "")).map
            fun w => row ++ [if girls.contains w then "1" else "0"] := by
  refine ⟨rfl, ?_⟩
  rw [labelScript]
  congr 1
  apply List.filterMap_congr
  intro row _
  rw [genderLabel, genderLabel_fold, lastGenderWord]
  cases hf : ((row.getD 5 "").splitOn " ").reverse.find?
      (fun w => girls.contains w || boys.contains w) with
  | none => simp [hf]
  | some w =>
    simp only [hf, Option.map_some']
    by_cases hg : girls.contains w = true
    · simp only [hg, if_true]
      rfl
    · simp only [hg, if_false]
      rfl

theorem gender_labeling_witness :
    (labelScript ["a", "b", "c", "d", "e", "sent2"]
        [["a", "b", "c", "d", "e", "She walked"],
         ["a", "b", "c", "d", "e", "the dog"]]).head? =
      some (["a", "b", "c", "d", "e", "sent2"] ++ ["gender"]) ∧
    labelScript ["a", "b", "c", "d", "e", "sent2"]
        [["a", "b", "c", "d", "e", "She walked"],
         ["a", "b", "c", "d", "e", "the dog"]] =
      (["a", "b", "c", "d", "e", "sent2"] ++ ["gender"]) ::
        [["a", "b", "c", "d", "e", "She walked"],
         ["a", "b", "c", "d", "e", "the dog"]].filterMap fun row =>
          (lastGenderWord (row.getD 5 "")).map
            fun w => row ++ [if girls.contains w then "1" else "0"] :=
  gender_labeling ["a", "b", "c", "d", "e", "sent2"]
    [["a", "b", "c", "d", "e", "She walked"],
     ["a", "b", "c", "d", "e", "the dog"]] (by decide)

/-- C1 is refuted by the code: on a training batch with predictor logits
`[[0, 0, 0, 0], [0, 0, 0, 0]]`, line 503 applies softmax to the 1-D tensor
of per-example maximum logits — i.e. ACROSS THE BATCH — so the value
prepended to each gathered VP id sequence is `⌊100 · (1/2)⌋ = 50` (and in
general depends on the other batch members), whereas the claimed value, the
maximum softmax probability of that example's own four per-choice logits
scaled to 0..100, is `⌊100 · (1/4)⌋ = 25`.  The prepended mask entries are
1, as the claim states. -/
theorem train_confidence_score_bug :
    trainConfScores [[0, 0, 0, 0], [0, 0, 0, 0]] = [50, 50] ∧
    specConfScores [[0, 0, 0, 0], [0, 0, 0, 0]] = [25, 25] ∧
    trainConfMask [[0, 0, 0, 0], [0, 0, 0, 0]] = [1, 1] := by
  have h4 : listMax [(0 : ℝ), 0, 0, 0] = 0 := by norm_num [listMax]
  have h1 : trainConfScores [[(0 : ℝ), 0, 0, 0], [0, 0, 0, 0]] = [50, 50] := by
    simp only [trainConfScores, List.map_cons, List.map_nil, h4, softmax,
      Real.exp_zero, List.sum_cons, List.sum_nil]
    norm_num
  refine ⟨h1, ?_, ?_⟩
  · simp only [specConfScores, List.map_cons, List.map_nil, softmax,
      Real.exp_zero, List.sum_cons, List.sum_nil]
    norm_num [listMax]
  · rw [trainConfMask, h1]
    norm_num

end Debias

